import Mathlib

/-!
Verification of the portfolio analytics engine of `web_app.py`
(routes `get_portfolio` and `get_portfolio_analysis`) against its
natural-language specification.

All monetary quantities and prices are modelled as rationals (`ℚ`);
the Python code computes with IEEE doubles, but every claim checked
here is about exact guards (`if x != 0`), counts, orderings and
structural equalities, none of which depend on rounding.  Dates are
modelled as naturals.
-/

abbrev Ticker := String

/-- One symbol's close-price history: (date, close) pairs, as produced by
`fetcher.get_stock_data` and reduced to the `close` column
(web_app.py lines 251-259). -/
abbrev PriceSeries := List (ℕ × ℚ)

/-- A holding row as stored by `portfolio_service` and consumed by
`get_portfolio` / `get_portfolio_analysis`: symbol, shares, cost basis. -/
structure Holding where
  symbol : Ticker
  shares : ℚ
  costBasis : ℚ
deriving DecidableEq

/-- One realtime quote as returned by `fetcher.get_realtime_batch`
(price and daily percent change; web_app.py lines 94-97). -/
structure RtQuote where
  price : ℚ
  changePct : ℚ
deriving DecidableEq

/-- Python's `str.isdigit()` as used at web_app.py line 100:
true iff the string is non-empty and all characters are digits. -/
def pyIsDigit (s : Ticker) : Bool :=
  !s.isEmpty && s.toList.all Char.isDigit

/-- web_app.py line 109: reconstruct the previous close from the daily
percent change, falling back to the current price when the divisor
`1 + pct/100` is zero (a -100% day). -/
def prevCloseOf (price pct : ℚ) : ℚ :=
  if 1 + pct / 100 ≠ 0 then price / (1 + pct / 100) else price

/-- web_app.py line 304: Sharpe ratio with the zero-volatility guard
(`if volatility != 0 else 0`). -/
def sharpeRatio (annualReturn vol rf : ℚ) : ℚ :=
  if vol ≠ 0 then (annualReturn - rf) / vol else 0

/-- The six running per-currency subtotals accumulated by the holdings
loop of `get_portfolio` (web_app.py lines 79-85). -/
structure Subtotals where
  mvCny : ℚ
  costCny : ℚ
  dayPlCny : ℚ
  mvUsd : ℚ
  costUsd : ℚ
  dayPlUsd : ℚ
deriving DecidableEq

/-- One iteration of the holdings loop of `get_portfolio`
(web_app.py lines 89-120): classify the symbol by `isdigit`, compute
market value, cost value and day P&L, and add them to the bucket's
subtotals. -/
def stepHolding (rt : Ticker → RtQuote) (acc : Subtotals) (h : Holding) : Subtotals :=
  let q := rt h.symbol
  let marketValue := q.price * h.shares
  let costValue := h.costBasis * h.shares
  let pc := prevCloseOf q.price q.changePct
  let dayPl := (q.price - pc) * h.shares
  if pyIsDigit h.symbol then
    { acc with mvCny := acc.mvCny + marketValue,
               costCny := acc.costCny + costValue,
               dayPlCny := acc.dayPlCny + dayPl }
  else
    { acc with mvUsd := acc.mvUsd + marketValue,
               costUsd := acc.costUsd + costValue,
               dayPlUsd := acc.dayPlUsd + dayPl }

/-- The whole holdings loop of `get_portfolio`, starting from zero
subtotals.  `rt` models `realtime_data.get(symbol, default)` as a total
map from symbols to quotes. -/
def subtotalsOf (holdings : List Holding) (rt : Ticker → RtQuote) : Subtotals :=
  holdings.foldl (stepHolding rt) ⟨0, 0, 0, 0, 0, 0⟩

/-- The fixed CNY→USD exchange rate, web_app.py line 146. -/
def fxRate : ℚ := 71 / 10

/-- The consolidated overview dict built by `get_portfolio`
(web_app.py lines 156-164, and the empty-portfolio literal at line 66,
which carries no `exchange_rate` field, hence the `Option`). -/
structure Overview where
  totalMarketValue : ℚ
  totalCost : ℚ
  totalPl : ℚ
  totalPlPct : ℚ
  dayPl : ℚ
  currency : String
  exchangeRate : Option ℚ
deriving DecidableEq

/-- `get_portfolio` (web_app.py lines 64-164) restricted to the overview
it returns: the empty-holdings early return at line 66, otherwise the
loop subtotals consolidated at the fixed rate (lines 139-154).
Python's `if final_cost` truthiness test is `≠ 0`. -/
def getPortfolioOverview (holdings : List Holding) (rt : Ticker → RtQuote) : Overview :=
  if holdings = [] then
    { totalMarketValue := 0, totalCost := 0, totalPl := 0,
      totalPlPct := 0, dayPl := 0, currency := "CNY", exchangeRate := none }
  else
    let st := subtotalsOf holdings rt
    let finalMv := st.mvUsd + st.mvCny / fxRate
    let finalCost := st.costUsd + st.costCny / fxRate
    let finalDayPl := st.dayPlUsd + st.dayPlCny / fxRate
    let totalPl := finalMv - finalCost
    { totalMarketValue := finalMv, totalCost := finalCost, totalPl := totalPl,
      totalPlPct := if finalCost ≠ 0 then totalPl / finalCost * 100 else 0,
      dayPl := finalDayPl, currency := "USD", exchangeRate := some fxRate }

/-- Per-bucket sum of a per-holding quantity over the holdings that
satisfy a classification predicate. -/
def bucketSum (holdings : List Holding) (pred : Holding → Bool) (f : Holding → ℚ) : ℚ :=
  ((holdings.filter pred).map f).sum

/-- Market value of one holding at its realtime quote. -/
def mvOf (rt : Ticker → RtQuote) (h : Holding) : ℚ := (rt h.symbol).price * h.shares

/-- Cost value of one holding. -/
def costOf (h : Holding) : ℚ := h.costBasis * h.shares

/-- Day P&L of one holding (web_app.py lines 109-110). -/
def dayPlOf (rt : Ticker → RtQuote) (h : Holding) : ℚ :=
  ((rt h.symbol).price - prevCloseOf (rt h.symbol).price (rt h.symbol).changePct) * h.shares

theorem foldl_stepHolding (rt : Ticker → RtQuote) :
    ∀ (holdings : List Holding) (acc : Subtotals),
      holdings.foldl (stepHolding rt) acc =
        { mvCny := acc.mvCny + bucketSum holdings (fun h => pyIsDigit h.symbol) (mvOf rt),
          costCny := acc.costCny + bucketSum holdings (fun h => pyIsDigit h.symbol) costOf,
          dayPlCny := acc.dayPlCny + bucketSum holdings (fun h => pyIsDigit h.symbol) (dayPlOf rt),
          mvUsd := acc.mvUsd + bucketSum holdings (fun h => !pyIsDigit h.symbol) (mvOf rt),
          costUsd := acc.costUsd + bucketSum holdings (fun h => !pyIsDigit h.symbol) costOf,
          dayPlUsd := acc.dayPlUsd + bucketSum holdings (fun h => !pyIsDigit h.symbol) (dayPlOf rt) } := by
  intro holdings
  induction holdings with
  | nil => intro acc; simp [bucketSum]
  | cons h t ih =>
      intro acc
      by_cases hd : pyIsDigit h.symbol
      · simp [List.foldl_cons, ih, stepHolding, hd, bucketSum, mvOf, costOf, dayPlOf, add_assoc]
      · simp [List.foldl_cons, ih, stepHolding, hd, bucketSum, mvOf, costOf, dayPlOf, add_assoc]

/-- C6: every purely-numeric symbol lands in the CNY bucket and every
other symbol in the USD bucket; the loop's subtotals are exactly the
per-bucket sums of market value, cost and day P&L; and the concrete
scenario (domestic market value 1000, foreign market value 100)
consolidates to `100 + 1000 / 7.1` USD. -/
theorem currency_buckets_consolidation :
    (∀ (holdings : List Holding) (rt : Ticker → RtQuote),
        subtotalsOf holdings rt =
          { mvCny := bucketSum holdings (fun h => pyIsDigit h.symbol) (mvOf rt),
            costCny := bucketSum holdings (fun h => pyIsDigit h.symbol) costOf,
            dayPlCny := bucketSum holdings (fun h => pyIsDigit h.symbol) (dayPlOf rt),
            mvUsd := bucketSum holdings (fun h => !pyIsDigit h.symbol) (mvOf rt),
            costUsd := bucketSum holdings (fun h => !pyIsDigit h.symbol) costOf,
            dayPlUsd := bucketSum holdings (fun h => !pyIsDigit h.symbol) (dayPlOf rt) })
    ∧ (∀ (holdings : List Holding) (rt : Ticker → RtQuote),
        holdings ≠ [] →
          (getPortfolioOverview holdings rt).totalMarketValue =
            (subtotalsOf holdings rt).mvUsd + (subtotalsOf holdings rt).mvCny / fxRate)
    ∧ (getPortfolioOverview
         [⟨"600519", 1, 0⟩, ⟨"AAPL", 1, 0⟩]
         (fun s => if s = "600519" then ⟨1000, 0⟩ else ⟨100, 0⟩)).totalMarketValue
        = 100 + 1000 / (71 / 10) := by
  refine ⟨?_, ?_, ?_⟩
  · intro holdings rt
    simp [subtotalsOf, foldl_stepHolding]
  · intro holdings rt hne
    simp [getPortfolioOverview, hne]
  · have hd1 : pyIsDigit "600519" = true := by decide
    have hd2 : pyIsDigit "AAPL" = false := by decide
    have hs1 : ("600519" : String) = "600519" := rfl
    have hs2 : ¬ (("AAPL" : String) = "600519") := by decide
    have hne : ([⟨"600519", 1, 0⟩, ⟨"AAPL", 1, 0⟩] : List Holding) ≠ [] :=
      List.cons_ne_nil _ _
    norm_num [getPortfolioOverview, subtotalsOf, stepHolding, prevCloseOf, fxRate,
      hd1, hd2, hs1, hs2, hne]

/-- Witness for `currency_buckets_consolidation` at a concrete
two-holding portfolio. -/
theorem currency_buckets_consolidation_witness :
    (getPortfolioOverview
       [⟨"600519", 1, 0⟩, ⟨"AAPL", 1, 0⟩]
       (fun s => if s = "600519" then ⟨1000, 0⟩ else ⟨100, 0⟩)).totalMarketValue =
      (subtotalsOf [⟨"600519", 1, 0⟩, ⟨"AAPL", 1, 0⟩]
         (fun s => if s = "600519" then ⟨1000, 0⟩ else ⟨100, 0⟩)).mvUsd +
      (subtotalsOf [⟨"600519", 1, 0⟩, ⟨"AAPL", 1, 0⟩]
         (fun s => if s = "600519" then ⟨1000, 0⟩ else ⟨100, 0⟩)).mvCny / fxRate :=
  currency_buckets_consolidation.2.1
    [⟨"600519", 1, 0⟩, ⟨"AAPL", 1, 0⟩]
    (fun s => if s = "600519" then ⟨1000, 0⟩ else ⟨100, 0⟩)
    (by decide)

/-- C5: the three division guards of the source never fault:
zero consolidated cost gives total P&L percent 0 (web_app.py line 154),
a -100% day falls back to the current price as previous close
(line 109), and zero volatility gives Sharpe ratio 0 (line 304). -/
theorem arithmetic_guards :
    (∀ (holdings : List Holding) (rt : Ticker → RtQuote),
        (getPortfolioOverview holdings rt).totalCost = 0 →
          (getPortfolioOverview holdings rt).totalPlPct = 0)
    ∧ (∀ price : ℚ, prevCloseOf price (-100) = price)
    ∧ (∀ annualReturn rf : ℚ, sharpeRatio annualReturn 0 rf = 0) := by
  refine ⟨?_, ?_, ?_⟩
  · intro holdings rt hc
    by_cases hne : holdings = []
    · simp [getPortfolioOverview, hne]
    · simp only [getPortfolioOverview, if_neg hne] at hc ⊢
      simp [hc]
  · intro price
    norm_num [prevCloseOf]
  · intro annualReturn rf
    simp [sharpeRatio]

/-- Witness for `arithmetic_guards`: a single zero-cost holding gives
total P&L percent 0. -/
theorem arithmetic_guards_witness :
    (getPortfolioOverview [⟨"600000", 5, 0⟩] (fun _ => ⟨10, 0⟩)).totalPlPct = 0 :=
  arithmetic_guards.1 [⟨"600000", 5, 0⟩] (fun _ => ⟨10, 0⟩) (by
    have hd : pyIsDigit "600000" = true := by decide
    norm_num [getPortfolioOverview, subtotalsOf, stepHolding, prevCloseOf, fxRate, hd])

/-- C10: an empty holdings list yields the all-zero overview with
currency "CNY" (web_app.py line 66), while any non-empty holdings list
yields an overview whose currency is "USD" (line 139). -/
theorem overview_currency_split :
    (∀ rt : Ticker → RtQuote,
        getPortfolioOverview [] rt =
          { totalMarketValue := 0, totalCost := 0, totalPl := 0,
            totalPlPct := 0, dayPl := 0, currency := "CNY", exchangeRate := none })
    ∧ (∀ (h : Holding) (hs : List Holding) (rt : Ticker → RtQuote),
        (getPortfolioOverview (h :: hs) rt).currency = "USD") := by
  constructor
  · intro rt
    simp [getPortfolioOverview]
  · intro h hs rt
    simp [getPortfolioOverview]

/-! ## Series aligner (web_app.py lines 265-274)

`pd.DataFrame(price_series)` outer-joins the per-symbol date indices
(union of all dates), `sort_index` sorts them ascending,
`fillna(method='ffill')` forward-fills each column, and `dropna()`
drops every row still containing a missing value.  The table is
modelled row-major: one row of `Option ℚ` cells per union date, in the
input's symbol order. -/

/-- Insert a date into an ascending list, keeping it ascending. -/
def insertAsc (d : ℕ) : List ℕ → List ℕ
  | [] => [d]
  | x :: xs => if d ≤ x then d :: x :: xs else x :: insertAsc d xs

/-- Ascending insertion sort (models `sort_index`). -/
def sortAsc (l : List ℕ) : List ℕ := l.foldr insertAsc []

/-- All dates occurring in any symbol's series. -/
def allDates (s : List (Ticker × PriceSeries)) : List ℕ :=
  (s.map (fun p => p.2.map Prod.fst)).flatten

/-- The shared outer-join date index: union of all dates, ascending. -/
def unionDates (s : List (Ticker × PriceSeries)) : List ℕ :=
  sortAsc (allDates s).dedup

/-- The raw (pre-fill) row of close prices at one date: for each symbol
in input order, its close at that date if it traded then. -/
def rawRow (s : List (Ticker × PriceSeries)) (d : ℕ) : List (Option ℚ) :=
  s.map (fun p => p.2.lookup d)

/-- Forward-fill one row from the previous filled row: a present cell
stays, a missing cell takes the column's most recent value. -/
def ffillMerge (prev row : List (Option ℚ)) : List (Option ℚ) :=
  List.zipWith (fun a v => match v with | some q => some q | none => a) prev row

/-- Forward-fill all rows top to bottom (`fillna(method='ffill')`). -/
def ffillRows (prev : List (Option ℚ)) : List (List (Option ℚ)) → List (List (Option ℚ))
  | [] => []
  | r :: rs => ffillMerge prev r :: ffillRows (ffillMerge prev r) rs

/-- The full forward-filled table: shared date index paired with the
filled rows. -/
def alignTable (s : List (Ticker × PriceSeries)) : List (ℕ × List (Option ℚ)) :=
  (unionDates s).zip
    (ffillRows (s.map (fun _ => none)) ((unionDates s).map (rawRow s)))

/-- `dropna()`: keep only the rows in which every symbol has a value. -/
def alignRows (s : List (Ticker × PriceSeries)) : List (ℕ × List (Option ℚ)) :=
  (alignTable s).filter (fun p => p.2.all Option.isSome)

/-- The four failure kinds of the analysis route: empty holdings
(line 234), no fetched series (line 262), empty aligned matrix
(line 273), too few return observations (line 286). -/
inductive AnalysisErr where
  | emptyPortfolio
  | emptyInput
  | noOverlap
  | insufficientData
deriving DecidableEq

/-- The aligner's outcome as the route reports it: `emptyInput` when no
symbol produced data (line 262), `noOverlap` when the matrix is empty
after dropna (lines 273-274), otherwise the aligned rows. -/
def alignResult (s : List (Ticker × PriceSeries)) :
    Except AnalysisErr (List (ℕ × List (Option ℚ))) :=
  if s = [] then .error .emptyInput
  else if alignRows s = [] then .error .noOverlap
  else .ok (alignRows s)

/-- The shared date index of the aligned matrix. -/
def alignedDates (s : List (Ticker × PriceSeries)) : List ℕ :=
  (alignRows s).map Prod.fst

/-- One symbol column of the aligned matrix (position `j` in input
order). -/
def alignedColumn (s : List (Ticker × PriceSeries)) (j : ℕ) : List (Option ℚ) :=
  (alignRows s).map (fun p => p.2.getD j none)

theorem ffillMerge_length (a b : List (Option ℚ)) :
    (ffillMerge a b).length = min a.length b.length :=
  List.length_zipWith _ _ _

theorem ffillRows_row_length (k : ℕ) :
    ∀ (rows : List (List (Option ℚ))) (prev : List (Option ℚ)),
      prev.length = k → (∀ r ∈ rows, r.length = k) →
      ∀ r ∈ ffillRows prev rows, r.length = k := by
  intro rows
  induction rows with
  | nil => intro prev _ _ r hr; simp [ffillRows] at hr
  | cons r rs ih =>
      intro prev hp hall r' hr'
      have hm : (ffillMerge prev r).length = k := by
        rw [ffillMerge_length, hp, hall r (List.mem_cons_self r rs), Nat.min_self]
      simp only [ffillRows, List.mem_cons] at hr'
      cases hr' with
      | inl h => rw [h]; exact hm
      | inr h =>
          exact ih (ffillMerge prev r) hm
            (fun x hx => hall x (List.mem_cons_of_mem _ hx)) r' h

theorem alignTable_row_length (s : List (Ticker × PriceSeries)) :
    ∀ p ∈ alignTable s, p.2.length = s.length := by
  intro p hp
  have h2 := (List.of_mem_zip hp).2
  refine ffillRows_row_length s.length _ _ ?_ ?_ _ h2
  · simp
  · intro r hr
    simp only [List.mem_map] at hr
    obtain ⟨d, -, rfl⟩ := hr
    simp [rawRow]

/-- C1: every row the aligner keeps carries one value per symbol (no
gaps survive `dropna`), so every symbol column has the same length and
runs over the same shared date index. -/
theorem aligned_matrix_complete (s : List (Ticker × PriceSeries)) (hne : s ≠ []) :
    (∀ p ∈ alignRows s, p.2.length = s.length ∧ p.2.all Option.isSome = true)
    ∧ (∀ j : ℕ, (alignedColumn s j).length = (alignedDates s).length) := by
  constructor
  · intro p hp
    have hfil : p ∈ (alignTable s).filter (fun q => q.2.all Option.isSome) := hp
    have hmp := List.mem_filter.mp hfil
    exact ⟨alignTable_row_length s p hmp.1, hmp.2⟩
  · intro j
    simp [alignedColumn, alignedDates]

/-- Witness for `aligned_matrix_complete` on a concrete two-symbol
input with partially overlapping calendars. -/
theorem aligned_matrix_complete_witness :
    (∀ p ∈ alignRows [("A", [(1, 10), (2, 11)]), ("B", [(2, 5), (3, 6)])],
        p.2.length = [("A", [((1:ℕ), (10:ℚ)), (2, 11)]), ("B", [(2, 5), (3, 6)])].length
          ∧ p.2.all Option.isSome = true)
    ∧ (∀ j : ℕ,
        (alignedColumn [("A", [(1, 10), (2, 11)]), ("B", [(2, 5), (3, 6)])] j).length =
          (alignedDates [("A", [(1, 10), (2, 11)]), ("B", [(2, 5), (3, 6)])]).length) :=
  aligned_matrix_complete [("A", [(1, 10), (2, 11)]), ("B", [(2, 5), (3, 6)])] (by decide)

/-- C2 counterexample: symbols "A" (dates 1,2) and "B" (dates 3,4)
share zero dates, yet the aligner returns a non-empty, fully-populated
matrix (rows from "B"'s first date on, with "A" forward-filled) instead
of the `noOverlap` failure the claim demands. -/
theorem zero_overlap_not_noOverlap :
    alignResult [("A", [(1, 10), (2, 11)]), ("B", [(3, 5), (4, 6)])] =
      .ok [(3, [some 11, some 5]), (4, [some 11, some 6])] := by
  have h : alignRows [("A", [(1, 10), (2, 11)]), ("B", [(3, 5), (4, 6)])] =
      [(3, [some 11, some 5]), (4, [some 11, some 6])] := by decide
  unfold alignResult
  rw [if_neg (by decide), h]
  simp

/-- C2 amended: the aligner never returns a matrix containing missing
cells, but an input in which one symbol shares zero raw dates with the
rest need not fail with `noOverlap`: forward-fill can still produce a
non-empty complete matrix. -/
theorem align_no_missing_cells :
    (∀ (s : List (Ticker × PriceSeries)) (rows : List (ℕ × List (Option ℚ))),
        alignResult s = .ok rows → ∀ p ∈ rows, p.2.all Option.isSome = true)
    ∧ alignResult [("A", [(1, 10), (2, 11)]), ("B", [(3, 5), (4, 6)])] ≠
        .error .noOverlap := by
  constructor
  · intro s rows hok p hp
    unfold alignResult at hok
    split at hok
    · exact absurd hok (by simp)
    · split at hok
      · exact absurd hok (by simp)
      · simp only [Except.ok.injEq] at hok
        subst hok
        have hfil : p ∈ (alignTable s).filter (fun q => q.2.all Option.isSome) := hp
        exact (List.mem_filter.mp hfil).2
  · have h : alignRows [("A", [(1, 10), (2, 11)]), ("B", [(3, 5), (4, 6)])] =
        [(3, [some 11, some 5]), (4, [some 11, some 6])] := by decide
    unfold alignResult
    rw [if_neg (by decide), h]
    simp

/-- Witness for `align_no_missing_cells` at the concrete zero-overlap
input. -/
theorem align_no_missing_cells_witness :
    ∀ p ∈ [((3:ℕ), [some (11:ℚ), some 5]), (4, [some 11, some 6])],
      p.2.all Option.isSome = true :=
  align_no_missing_cells.1 [("A", [(1, 10), (2, 11)]), ("B", [(3, 5), (4, 6)])]
    [(3, [some 11, some 5]), (4, [some 11, some 6])] (by
      have h : alignRows [("A", [(1, 10), (2, 11)]), ("B", [(3, 5), (4, 6)])] =
          [(3, [some 11, some 5]), (4, [some 11, some 6])] := by decide
      unfold alignResult
      rw [if_neg (by decide), h]
      simp)

/-! ## Analysis pipeline (web_app.py lines 232-347) -/

/-- One iteration of the fetch loop (web_app.py lines 244-260): skip
holdings with non-positive shares, skip symbols whose fetch failed
(`df is None`) or returned an empty frame, otherwise append the close
series and the share count.  Nothing records the skipped symbols. -/
def collectStep (fetch : Ticker → Option PriceSeries)
    (acc : List (Ticker × PriceSeries) × List (Ticker × ℚ)) (h : Holding) :
    List (Ticker × PriceSeries) × List (Ticker × ℚ) :=
  if h.shares ≤ 0 then acc
  else
    match fetch h.symbol with
    | none => acc
    | some ser =>
        if ser = [] then acc
        else (acc.1 ++ [(h.symbol, ser)], acc.2 ++ [(h.symbol, h.shares)])

/-- The whole fetch loop: the `price_series` dict (as an ordered
association list) and the `shares_map`. -/
def collectSeries (holdings : List Holding) (fetch : Ticker → Option PriceSeries) :
    List (Ticker × PriceSeries) × List (Ticker × ℚ) :=
  holdings.foldl (collectStep fetch) ([], [])

/-- The portfolio value of one aligned row (web_app.py lines 278-280):
the column loop `portfolio_value += prices_df[symbol] *
shares_map.get(symbol, 0)` accumulates, per row, the sum over symbols
of close price times shares.  Aligned cells are always `some`, so the
`getD 0` default is never taken on the analysis path. -/
def rowValue (shares : List (Ticker × ℚ)) (syms : List Ticker)
    (cells : List (Option ℚ)) : ℚ :=
  (syms.zip cells).foldl
    (fun acc p => acc + (p.2.getD 0) * ((shares.lookup p.1).getD 0)) 0

/-- The dated portfolio-value curve over the aligned rows. -/
def portfolioValues (syms : List Ticker) (shares : List (Ticker × ℚ))
    (rows : List (ℕ × List (Option ℚ))) : List (ℕ × ℚ) :=
  rows.map (fun r => (r.1, rowValue shares syms r.2))

/-- `portfolio_value.pct_change().dropna()` (web_app.py line 284): the
first point has no return; each later point contributes
`curr/prev - 1`.  A `0/0` pair is a float NaN and is dropped by
`dropna`; a `nonzero/0` pair is an infinity, which `dropna` keeps (its
rational stand-in value is irrelevant: every claim below depends only
on the list's length, never on such an entry's value). -/
def pctChangeKept (l : List ℚ) : List ℚ :=
  (l.zip l.tail).filterMap
    (fun p => if p.1 = 0 ∧ p.2 = 0 then none else some (p.2 / p.1 - 1))

/-- `value.iloc[-1] / value.iloc[0] - 1` (web_app.py line 293); the
defaults are never taken on the analysis path, which guarantees a
non-empty value series. -/
def totalReturnOf (l : List ℚ) : ℚ := l.getLastD 0 / l.headD 0 - 1

/-- Running maximum continued from an already-accumulated maximum `m`. -/
def cummaxFrom (m : ℚ) : List ℚ → List ℚ
  | [] => []
  | v :: vs => max m v :: cummaxFrom (max m v) vs

/-- `portfolio_value.cummax()` (web_app.py line 307). -/
def cummax : List ℚ → List ℚ
  | [] => []
  | v :: vs => cummaxFrom v (v :: vs)

/-- `(portfolio_value - rolling_max) / rolling_max` (line 308). -/
def drawdowns (l : List ℚ) : List ℚ :=
  List.zipWith (fun v m => (v - m) / m) l (cummax l)

/-- `series.min()` for a non-empty series; 0 on the empty list (the
analysis path never reaches it there). -/
def listMin : List ℚ → ℚ
  | [] => 0
  | x :: xs => xs.foldl min x

/-- `drawdown.min()` (web_app.py line 309). -/
def maxDrawdown (l : List ℚ) : ℚ := listMin (drawdowns l)

/-- The rational-valued slice of the `analysis_result` payload
(web_app.py lines 333-347): total return, max drawdown, the chart
series, and `period_days = len(returns)`.  The irrational metrics
(annualized return, volatility, Sharpe) involve real roots and powers
of these quantities; their guard is modelled by `sharpeRatio`. -/
structure AnalysisCore where
  totalReturn : ℚ
  maxDd : ℚ
  chart : List (ℕ × ℚ)
  periodDays : ℕ
deriving DecidableEq

/-- Lines 284-347 from the value curve on: the `len(returns) < 10` gate
(line 286) and the result record. -/
def analyzeValues (dates : List ℕ) (values : List ℚ) : Except AnalysisErr AnalysisCore :=
  if (pctChangeKept values).length < 10 then .error .insufficientData
  else .ok { totalReturn := totalReturnOf values, maxDd := maxDrawdown values,
             chart := dates.zip values, periodDays := (pctChangeKept values).length }

/-- The whole analysis route `get_portfolio_analysis` (web_app.py
lines 232-347) as a function of the holdings and the fetch oracle:
empty-portfolio check (line 234), fetch loop, aligner, value curve,
metrics gate. -/
def analysisResponse (holdings : List Holding) (fetch : Ticker → Option PriceSeries) :
    Except AnalysisErr AnalysisCore :=
  if holdings = [] then .error .emptyPortfolio
  else
    match alignResult (collectSeries holdings fetch).1 with
    | .error e => .error e
    | .ok rows =>
        analyzeValues (rows.map Prod.fst)
          (rows.map (fun r =>
            rowValue (collectSeries holdings fetch).2
              ((collectSeries holdings fetch).1.map Prod.fst) r.2))

/-- Whether an `Except` result is a success. -/
def isOkResult {ε α : Type} : Except ε α → Bool
  | .ok _ => true
  | .error _ => false

theorem foldl_add_sum {α : Type} (f : α → ℚ) :
    ∀ (l : List α) (acc : ℚ), l.foldl (fun a p => a + f p) acc = acc + (l.map f).sum := by
  intro l
  induction l with
  | nil => simp
  | cons x xs ih => intro acc; simp [ih, add_assoc]

/-- C3: the analysis fails with `insufficientData` exactly when fewer
than 10 return observations remain; for an all-positive value series
the number of return observations is the series length minus one (the
first point has no return). -/
theorem insufficient_data_gate :
    (∀ (dates : List ℕ) (values : List ℚ),
        analyzeValues dates values = .error .insufficientData ↔
          (pctChangeKept values).length < 10)
    ∧ (∀ values : List ℚ, (∀ v ∈ values, 0 < v) →
        (pctChangeKept values).length = values.length - 1) := by
  constructor
  · intro dates values
    simp only [analyzeValues]
    split
    · rename_i h
      simp [h]
    · rename_i h
      simp [h]
  · intro values hpos
    induction values with
    | nil => simp [pctChangeKept]
    | cons a t ih =>
        cases t with
        | nil => simp [pctChangeKept]
        | cons b t2 =>
            have ha : (0:ℚ) < a := hpos a (by simp)
            have hcond : ¬(a = 0 ∧ b = 0) := fun hc => absurd hc.1 (ne_of_gt ha)
            have ih2 := ih (fun v hv => hpos v (List.mem_cons_of_mem _ hv))
            have hstep : pctChangeKept (a :: b :: t2) =
                (b / a - 1) :: pctChangeKept (b :: t2) := by
              simp [pctChangeKept, hcond]
            rw [hstep, List.length_cons, ih2]
            simp

/-- Witness for `insufficient_data_gate` on an 11-point positive value
series: exactly 10 return observations remain. -/
theorem insufficient_data_gate_witness :
    (pctChangeKept [1, 1, 1, 1, 1, 1, 1, 1, 1, 1, 1]).length =
      [(1:ℚ), 1, 1, 1, 1, 1, 1, 1, 1, 1, 1].length - 1 :=
  insufficient_data_gate.2 [1, 1, 1, 1, 1, 1, 1, 1, 1, 1, 1] (by decide)

/-- The spec's scenario input: symbol "A" closes [10,11,12,13] and "B"
closes [100,90,95,105] over four shared dates. -/
def exScenario : List (Ticker × PriceSeries) :=
  [("A", [(1, 10), (2, 11), (3, 12), (4, 13)]),
   ("B", [(1, 100), (2, 90), (3, 95), (4, 105)])]

/-- The scenario's shares map: 10 shares of "A", 1 share of "B". -/
def exScenarioShares : List (Ticker × ℚ) := [("A", 10), ("B", 1)]

/-- C4: the per-row portfolio value is the sum over symbols of close
price times shares held; total return is last over first value minus
one; and the spec scenario (A=[10,11,12,13]×10 shares,
B=[100,90,95,105]×1 share) yields values [200,200,215,235] and total
return 7/40 = 17.5%. -/
theorem portfolio_value_and_total_return :
    (∀ (shares : List (Ticker × ℚ)) (syms : List Ticker) (cells : List (Option ℚ)),
        rowValue shares syms cells =
          ((syms.zip cells).map
            (fun p => (p.2.getD 0) * ((shares.lookup p.1).getD 0))).sum)
    ∧ (∀ (v : ℚ) (vs : List ℚ), totalReturnOf (v :: vs) = vs.getLastD v / v - 1)
    ∧ portfolioValues (exScenario.map Prod.fst) exScenarioShares (alignRows exScenario) =
        [(1, 200), (2, 200), (3, 215), (4, 235)]
    ∧ totalReturnOf [200, 200, 215, 235] = 7 / 40 := by
  refine ⟨?_, ?_, ?_, ?_⟩
  · intro shares syms cells
    rw [rowValue, foldl_add_sum, zero_add]
  · intro v vs
    rw [totalReturnOf, List.getLastD_cons, List.headD_cons]
  · have hrows : alignRows exScenario =
        [(1, [some 10, some 100]), (2, [some 11, some 90]),
         (3, [some 12, some 95]), (4, [some 13, some 105])] := by decide
    have hsyms : exScenario.map Prod.fst = ["A", "B"] := by decide
    have hla : List.lookup "A" exScenarioShares = some 10 := by decide
    have hlb : List.lookup "B" exScenarioShares = some 1 := by decide
    rw [portfolioValues, hrows, hsyms]
    norm_num [rowValue, hla, hlb]
  · norm_num [totalReturnOf, List.getLastD_cons]

/-- A 12-day constant-price series, long enough to pass the 10-return
gate. -/
def exGoodSeries : PriceSeries := (List.range 12).map (fun i => (i, 1))

/-- A fetch oracle for which "GOOD" succeeds and every other symbol
(such as "BAD") fails. -/
def exFetch : Ticker → Option PriceSeries :=
  fun s => if s = "GOOD" then some exGoodSeries else none

/-- A holding whose fetch fails. -/
def hFail : Holding := ⟨"BAD", 1, 0⟩

/-- A holding whose fetch succeeds. -/
def hGood : Holding := ⟨"GOOD", 2, 0⟩

theorem exFetch_aligned :
    alignResult [("GOOD", exGoodSeries)] =
      .ok [(0, [some 1]), (1, [some 1]), (2, [some 1]), (3, [some 1]),
           (4, [some 1]), (5, [some 1]), (6, [some 1]), (7, [some 1]),
           (8, [some 1]), (9, [some 1]), (10, [some 1]), (11, [some 1])] := by
  have h : alignRows [("GOOD", exGoodSeries)] =
      [(0, [some 1]), (1, [some 1]), (2, [some 1]), (3, [some 1]),
       (4, [some 1]), (5, [some 1]), (6, [some 1]), (7, [some 1]),
       (8, [some 1]), (9, [some 1]), (10, [some 1]), (11, [some 1])] := by decide
  unfold alignResult
  rw [if_neg (by decide), h]
  simp

/-- C9 counterexample: with "BAD" failing to fetch and "GOOD"
succeeding, the analysis response is a plain success *identical* to the
response for a portfolio without "BAD" at all — no structured
partial-failure indication naming the dropped symbol ever reaches the
caller (the fetch loop at web_app.py lines 244-260 silently skips
failures and the payload at lines 333-347 has no field for them). -/
theorem silent_fetch_failure :
    analysisResponse [hFail, hGood] exFetch = analysisResponse [hGood] exFetch
    ∧ isOkResult (analysisResponse [hGood] exFetch) = true := by
  have hc : collectSeries [hFail, hGood] exFetch = collectSeries [hGood] exFetch := by
    decide
  have h1 : ([hFail, hGood] : List Holding) ≠ [] := List.cons_ne_nil _ _
  have h2 : ([hGood] : List Holding) ≠ [] := List.cons_ne_nil _ _
  have hcol : collectSeries [hGood] exFetch = ([("GOOD", exGoodSeries)], [("GOOD", 2)]) := by
    decide
  constructor
  · simp [analysisResponse, hc, h1, h2]
  · have hlk : List.lookup "GOOD" [("GOOD", (2:ℚ))] = some 2 := by decide
    simp only [analysisResponse, if_neg h2, hcol, exFetch_aligned]
    have hcond : ¬((2:ℚ) = 0 ∧ (2:ℚ) = 0) := by norm_num
    norm_num [analyzeValues, pctChangeKept, rowValue, isOkResult, hlk,
      List.filterMap_cons, hcond]

/-- C9 amended: when fetching fails for a symbol, the analysis proceeds
on the remaining symbols, but the caller receives no partial-failure
indication: the response is identical to the one for a portfolio that
never contained the failed symbol (provided some holdings remain). -/
theorem failed_fetch_invisible (l1 l2 : List Holding) (h : Holding)
    (fetch : Ticker → Option PriceSeries) (hf : fetch h.symbol = none)
    (hne : l1 ++ l2 ≠ []) :
    analysisResponse (l1 ++ h :: l2) fetch = analysisResponse (l1 ++ l2) fetch := by
  have hstep : ∀ acc, collectStep fetch acc h = acc := by
    intro acc
    unfold collectStep
    rw [hf]
    split <;> rfl
  have hcol : collectSeries (l1 ++ h :: l2) fetch = collectSeries (l1 ++ l2) fetch := by
    unfold collectSeries
    rw [List.foldl_append, List.foldl_append, List.foldl_cons, hstep]
  have hne2 : l1 ++ h :: l2 ≠ [] := by simp
  simp [analysisResponse, hcol, hne, hne2]

/-- Witness for `failed_fetch_invisible` at the concrete oracle where
"BAD" fails and "GOOD" succeeds. -/
theorem failed_fetch_invisible_witness :
    analysisResponse [hFail, hGood] exFetch = analysisResponse [hGood] exFetch :=
  failed_fetch_invisible [] [hGood] hFail exFetch (by decide) (by simp)

/-! ## Max drawdown (web_app.py lines 306-309) -/

theorem foldl_min_le_init : ∀ (xs : List ℚ) (a : ℚ), xs.foldl min a ≤ a := by
  intro xs
  induction xs with
  | nil => intro a; simp
  | cons x t ih => intro a; exact le_trans (ih (min a x)) (min_le_left a x)

theorem foldl_min_le_mem : ∀ (xs : List ℚ) (a x : ℚ), x ∈ xs → xs.foldl min a ≤ x := by
  intro xs
  induction xs with
  | nil => intro a x hx; simp at hx
  | cons y t ih =>
      intro a x hx
      rcases List.mem_cons.mp hx with h | h
      · subst h
        exact le_trans (foldl_min_le_init t (min a x)) (min_le_right a x)
      · exact ih (min a y) x h

theorem listMin_le_mem (l : List ℚ) (x : ℚ) (hx : x ∈ l) : listMin l ≤ x := by
  cases l with
  | nil => simp at hx
  | cons y t =>
      rcases List.mem_cons.mp hx with h | h
      · subst h; exact foldl_min_le_init t x
      · exact foldl_min_le_mem t y x h

theorem foldl_min_mem : ∀ (xs : List ℚ) (a : ℚ), xs.foldl min a = a ∨ xs.foldl min a ∈ xs := by
  intro xs
  induction xs with
  | nil => intro a; left; rfl
  | cons x t ih =>
      intro a
      rcases ih (min a x) with h | h
      · rcases min_choice a x with hm | hm
        · left; rw [List.foldl_cons, h, hm]
        · right; rw [List.foldl_cons, h, hm]; exact List.mem_cons_self x t
      · right; exact List.mem_cons_of_mem x h

theorem listMin_eq_zero_of_all_zero (l : List ℚ) (hz : ∀ x ∈ l, x = 0) : listMin l = 0 := by
  cases l with
  | nil => rfl
  | cons x xs =>
      rcases foldl_min_mem xs x with h | h
      · rw [listMin, h]; exact hz x (List.mem_cons_self x xs)
      · rw [listMin]; exact hz _ (List.mem_cons_of_mem x h)

theorem le_foldl_max_init : ∀ (xs : List ℚ) (a : ℚ), a ≤ xs.foldl max a := by
  intro xs
  induction xs with
  | nil => intro a; simp
  | cons x t ih => intro a; exact le_trans (le_max_left a x) (ih (max a x))

theorem le_foldl_max_mem : ∀ (xs : List ℚ) (a x : ℚ), x ∈ xs → x ≤ xs.foldl max a := by
  intro xs
  induction xs with
  | nil => intro a x hx; simp at hx
  | cons y t ih =>
      intro a x hx
      rcases List.mem_cons.mp hx with h | h
      · subst h
        exact le_trans (le_max_right a x) (le_foldl_max_init t (max a x))
      · exact ih (max a y) x h

theorem cummaxFrom_length : ∀ (l : List ℚ) (m : ℚ), (cummaxFrom m l).length = l.length := by
  intro l
  induction l with
  | nil => intro m; rfl
  | cons v vs ih => intro m; simp [cummaxFrom, ih]

theorem cummaxFrom_append :
    ∀ (xs ys : List ℚ) (m : ℚ),
      cummaxFrom m (xs ++ ys) = cummaxFrom m xs ++ cummaxFrom (xs.foldl max m) ys := by
  intro xs
  induction xs with
  | nil => intro ys m; simp [cummaxFrom]
  | cons x t ih => intro ys m; simp [cummaxFrom, ih, List.foldl_cons]

theorem cummaxFrom_dd_nonpos :
    ∀ (l : List ℚ) (m : ℚ), 0 < m → (∀ v ∈ l, 0 < v) →
      ∀ x ∈ List.zipWith (fun v mx => (v - mx) / mx) l (cummaxFrom m l), x ≤ 0 := by
  intro l
  induction l with
  | nil => intro m _ _ x hx; simp [cummaxFrom] at hx
  | cons v vs ih =>
      intro m hm hpos x hx
      rw [cummaxFrom, List.zipWith_cons_cons] at hx
      rcases List.mem_cons.mp hx with h | h
      · subst h
        have hmax : (0:ℚ) < max m v := lt_max_of_lt_left hm
        have hv : v ≤ max m v := le_max_right m v
        exact div_nonpos_iff.mpr (Or.inr ⟨by linarith, le_of_lt hmax⟩)
      · exact ih (max m v) (lt_max_of_lt_left hm)
          (fun y hy => hpos y (List.mem_cons_of_mem _ hy)) x h

theorem cummaxFrom_dd_zero :
    ∀ (l : List ℚ) (m : ℚ), List.Chain (· ≤ ·) m l →
      ∀ x ∈ List.zipWith (fun v mx => (v - mx) / mx) l (cummaxFrom m l), x = 0 := by
  intro l
  induction l with
  | nil => intro m _ x hx; simp [cummaxFrom] at hx
  | cons v vs ih =>
      intro m hch x hx
      rcases List.chain_cons.mp hch with ⟨hmv, hch2⟩
      rw [cummaxFrom, max_eq_right hmv, List.zipWith_cons_cons] at hx
      rcases List.mem_cons.mp hx with h | h
      · subst h; simp
      · exact ih v hch2 x h

theorem dd_neg_of_later_drop (X l3 : List ℚ) (a b m : ℚ)
    (haX : a ∈ X) (hba : b < a) (ha : 0 < a) :
    ∃ x ∈ List.zipWith (fun v mx => (v - mx) / mx)
        (X ++ b :: l3) (cummaxFrom m (X ++ b :: l3)), x < 0 := by
  have hMa : a ≤ X.foldl max m := le_foldl_max_mem X m a haX
  have hMpos : 0 < X.foldl max m := lt_of_lt_of_le ha hMa
  have hbM : b < X.foldl max m := lt_of_lt_of_le hba hMa
  have hsplit : cummaxFrom m (X ++ b :: l3) =
      cummaxFrom m X ++ (X.foldl max m :: cummaxFrom (X.foldl max m) l3) := by
    rw [cummaxFrom_append, cummaxFrom, max_eq_left (le_of_lt hbM)]
  refine ⟨(b - X.foldl max m) / X.foldl max m, ?_, ?_⟩
  · rw [hsplit, List.zipWith_append _ _ _ _ _ (by rw [cummaxFrom_length]),
        List.zipWith_cons_cons]
    exact List.mem_append_right _ (List.mem_cons_self _ _)
  · exact div_neg_of_neg_of_pos (by linarith) hMpos

/-- C7: for a positive value series, max drawdown (minimum over the
series of `(value - running_max) / running_max`, web_app.py lines
306-309) is never positive; it is 0 for a monotonically non-decreasing
series; and it is strictly negative whenever a later value sits below
an earlier one. -/
theorem max_drawdown_spec (l : List ℚ) (hpos : ∀ v ∈ l, 0 < v) :
    maxDrawdown l ≤ 0
    ∧ (List.Chain' (· ≤ ·) l → maxDrawdown l = 0)
    ∧ (∀ l1 a l2 b l3, l = l1 ++ a :: l2 ++ b :: l3 → b < a → maxDrawdown l < 0) := by
  refine ⟨?_, ?_, ?_⟩
  · cases l with
    | nil => simp [maxDrawdown, drawdowns, cummax, listMin]
    | cons v vs =>
        have hv : 0 < v := hpos v (List.mem_cons_self v vs)
        have hdd : drawdowns (v :: vs) =
            List.zipWith (fun x mx => (x - mx) / mx) (v :: vs) (cummaxFrom v (v :: vs)) := by
          rw [drawdowns, cummax]
        have hall := cummaxFrom_dd_nonpos (v :: vs) v hv hpos
        have hmem : ((v - max v v) / max v v) ∈
            List.zipWith (fun x mx => (x - mx) / mx) (v :: vs) (cummaxFrom v (v :: vs)) := by
          rw [cummaxFrom, List.zipWith_cons_cons]
          exact List.mem_cons_self _ _
        have h1 : maxDrawdown (v :: vs) ≤ (v - max v v) / max v v := by
          rw [maxDrawdown, hdd]
          exact listMin_le_mem _ _ hmem
        exact le_trans h1 (hall _ hmem)
  · intro hch
    cases l with
    | nil => simp [maxDrawdown, drawdowns, cummax, listMin]
    | cons v vs =>
        have hchain : List.Chain (· ≤ ·) v (v :: vs) :=
          List.chain_cons.mpr ⟨le_refl v, hch⟩
        have hzero := cummaxFrom_dd_zero (v :: vs) v hchain
        have hdd : drawdowns (v :: vs) =
            List.zipWith (fun x mx => (x - mx) / mx) (v :: vs) (cummaxFrom v (v :: vs)) := by
          rw [drawdowns, cummax]
        rw [maxDrawdown, hdd]
        exact listMin_eq_zero_of_all_zero _ hzero
  · intro l1 a l2 b l3 heq hba
    have hL : l = (l1 ++ a :: l2) ++ b :: l3 := by rw [heq, List.append_assoc]
    obtain ⟨x, xs, hX⟩ :=
      List.exists_cons_of_ne_nil (show l1 ++ a :: l2 ≠ [] by simp)
    rw [hX] at hL
    have hx : 0 < x := hpos x (by rw [hL]; exact List.mem_append_left _ (List.mem_cons_self x xs))
    have haX : a ∈ x :: xs := by
      rw [← hX]; exact List.mem_append_right _ (List.mem_cons_self a l2)
    have ha : 0 < a := hpos a (by rw [hL]; exact List.mem_append_left _ haX)
    obtain ⟨y, hy, hyneg⟩ := dd_neg_of_later_drop (x :: xs) l3 a b x haX hba ha
    have hdd : drawdowns l =
        List.zipWith (fun q mx => (q - mx) / mx)
          ((x :: xs) ++ b :: l3) (cummaxFrom x ((x :: xs) ++ b :: l3)) := by
      rw [hL]
      simp only [List.cons_append, drawdowns, cummax]
    have hle : maxDrawdown l ≤ y := by
      rw [maxDrawdown, hdd]
      exact listMin_le_mem _ _ (by simpa using hy)
    exact lt_of_le_of_lt hle hyneg

/-- Witness for `max_drawdown_spec` on the concrete positive series
[4, 2, 3]. -/
theorem max_drawdown_spec_witness :
    maxDrawdown [(4:ℚ), 2, 3] ≤ 0
    ∧ (List.Chain' (· ≤ ·) [(4:ℚ), 2, 3] → maxDrawdown [(4:ℚ), 2, 3] = 0)
    ∧ (∀ l1 a l2 b l3, [(4:ℚ), 2, 3] = l1 ++ a :: l2 ++ b :: l3 → b < a →
        maxDrawdown [(4:ℚ), 2, 3] < 0) :=
  max_drawdown_spec [4, 2, 3] (by decide)

/-! ## NaN/Infinity scrubbing (`_clean_nan_values`, web_app.py lines 640-664)

Python floats are modelled symbolically: a JSON-bound value is either a
finite number (carried as a rational), a NaN, an Infinity, or one of
the other JSON shapes `_clean_nan_values` recurses through.  The
function only ever branches on `isnan`/`isinf`, never on a float's
magnitude, so this symbolic model captures it exactly. -/

mutual
inductive JVal : Type where
  | num : ℚ → JVal
  | nan : JVal
  | inf : JVal
  | bool : Bool → JVal
  | str : String → JVal
  | null : JVal
  | arr : JArr → JVal
  | obj : JObj → JVal
inductive JArr : Type where
  | nil : JArr
  | cons : JVal → JArr → JArr
inductive JObj : Type where
  | nil : JObj
  | cons : String → JVal → JObj → JObj
end

mutual
/-- `_clean_nan_values`: dicts and lists are cleaned recursively,
NaN/Infinity floats become `None` (null), every other leaf passes
through. -/
def cleanVal : JVal → JVal
  | .num q => .num q
  | .nan => .null
  | .inf => .null
  | .bool b => .bool b
  | .str s => .str s
  | .null => .null
  | .arr l => .arr (cleanArr l)
  | .obj o => .obj (cleanObj o)
/-- `_clean_nan_values` over a JSON list. -/
def cleanArr : JArr → JArr
  | .nil => .nil
  | .cons v l => .cons (cleanVal v) (cleanArr l)
/-- `_clean_nan_values` over a JSON dict (keys kept, values cleaned). -/
def cleanObj : JObj → JObj
  | .nil => .nil
  | .cons k v o => .cons k (cleanVal v) (cleanObj o)
end

mutual
/-- Does a serialized value contain a literal NaN or Infinity anywhere? -/
def hasNonfinite : JVal → Bool
  | .num _ => false
  | .nan => true
  | .inf => true
  | .bool _ => false
  | .str _ => false
  | .null => false
  | .arr l => hasNonfiniteArr l
  | .obj o => hasNonfiniteObj o
/-- Non-finite occurrence check over a JSON list. -/
def hasNonfiniteArr : JArr → Bool
  | .nil => false
  | .cons v l => hasNonfinite v || hasNonfiniteArr l
/-- Non-finite occurrence check over a JSON dict. -/
def hasNonfiniteObj : JObj → Bool
  | .nil => false
  | .cons _ v o => hasNonfinite v || hasNonfiniteObj o
end

mutual
theorem cleanVal_scrubs : ∀ v : JVal, hasNonfinite (cleanVal v) = false
  | .num q => rfl
  | .nan => rfl
  | .inf => rfl
  | .bool b => rfl
  | .str s => rfl
  | .null => rfl
  | .arr l => by rw [cleanVal, hasNonfinite]; exact cleanArr_scrubs l
  | .obj o => by rw [cleanVal, hasNonfinite]; exact cleanObj_scrubs o
theorem cleanArr_scrubs : ∀ l : JArr, hasNonfiniteArr (cleanArr l) = false
  | .nil => rfl
  | .cons v l => by
      rw [cleanArr, hasNonfiniteArr, cleanVal_scrubs v, cleanArr_scrubs l]
      rfl
theorem cleanObj_scrubs : ∀ o : JObj, hasNonfiniteObj (cleanObj o) = false
  | .nil => rfl
  | .cons k v o => by
      rw [cleanObj, hasNonfiniteObj, cleanVal_scrubs v, cleanObj_scrubs o]
      rfl
end

/-- C8: the response of the analysis route is
`_clean_nan_values(analysis_result)` (web_app.py line 349), and the
cleaned form of any value contains no literal NaN or Infinity anywhere:
every non-finite float has been replaced by null. -/
theorem analysis_payload_no_nonfinite (payload : JVal) :
    hasNonfinite (cleanVal payload) = false :=
  cleanVal_scrubs payload
